import Mathlib

/-!
Shallow embedding of the exchange-abstraction core of the cryptofiend
repository (Go): the currency-pair model, the nonce sequencer, the
authenticated-request precondition, the order-book cache accessors, the
order-state normalizer, the limits accessors, the order aggregation loop
and the Gemini session registry.  Quantities that the Go code handles
through the shopspring decimal package are modelled as rationals; machine
integers are modelled as `Int` with explicit two's-complement wrapping
where overflow matters.
-/

set_option autoImplicit false

namespace Cryptofiend

/-- Canonical order status produced by the order-state normalizer
(`exchange.OrderStatus*` constants in the Go code). -/
inductive OrderStatus where
  | Active
  | Filled
  | Aborted
  | Unknown
deriving DecidableEq, Repr

namespace Binance

/-- Raw Binance order-status constant. Modelled from the spec: the constant
declarations live in binance.go which is not under src/; the spec's raw
vocabulary (new, partially-filled, filled, canceled, pending-cancel,
expired, rejected) fixes one distinct string per constant, matching the
Binance REST API values. -/
def OrderStatusNew : String := "NEW"

/-- Raw Binance partially-filled status constant (see `OrderStatusNew`). -/
def OrderStatusPartial : String := "PARTIALLY_FILLED"

/-- Raw Binance filled status constant (see `OrderStatusNew`). -/
def OrderStatusFilled : String := "FILLED"

/-- Raw Binance canceled status constant (see `OrderStatusNew`). -/
def OrderStatusCanceled : String := "CANCELED"

/-- Raw Binance pending-cancel status constant (see `OrderStatusNew`). -/
def OrderStatusPendingCancel : String := "PENDING_CANCEL"

/-- Raw Binance expired status constant (see `OrderStatusNew`). -/
def OrderStatusExpired : String := "EXPIRED"

/-- Raw Binance rejected status constant (see `OrderStatusNew`). -/
def OrderStatusRejected : String := "REJECTED"

/-- Raw Binance order as decoded from the REST response
(binance.go `Order`; fields used by `convertOrderToExchangeOrder`).
Quantities are rationals standing for the decimal values. -/
structure Order where
  OrderID : Int
  Status : String
  OrigQty : ℚ
  ExecutedQty : ℚ
  Price : ℚ
  Time : Int
  Symbol : String
  Side : String
  Type' : String
deriving DecidableEq, Repr

/-- Canonical order record (`exchange.Order`), as filled in by
`convertOrderToExchangeOrder`. -/
structure ExchOrder where
  OrderID : String
  Status : OrderStatus
  Amount : ℚ
  FilledAmount : ℚ
  RemainingAmount : ℚ
  Rate : ℚ
  CreatedAt : Int
  Side : String
deriving DecidableEq, Repr

/-- The raw-to-canonical status switch inside
`Binance.convertOrderToExchangeOrder` (binance_wrapper.go lines 277-286):
canceled / pending-cancel / expired / rejected map to Aborted, filled to
Filled, new / partially-filled to Active, and the default case to Unknown. -/
def mapOrderStatus (s : String) : OrderStatus :=
  if s = OrderStatusCanceled ∨ s = OrderStatusPendingCancel ∨
      s = OrderStatusExpired ∨ s = OrderStatusRejected then
    OrderStatus.Aborted
  else if s = OrderStatusFilled then
    OrderStatus.Filled
  else if s = OrderStatusNew ∨ s = OrderStatusPartial then
    OrderStatus.Active
  else
    OrderStatus.Unknown

/-- Embedding of `Binance.convertOrderToExchangeOrder`
(binance_wrapper.go lines 273-305): the status switch, the remaining-amount
computation `OrigQty - ExecutedQty` (exact decimal subtraction in the Go
code, a rational here), the zero-remaining override to Filled, and the
millisecond-to-second timestamp conversion. -/
def convertOrderToExchangeOrder (order : Order) : ExchOrder :=
  let status0 := mapOrderStatus order.Status
  let remaining : ℚ := order.OrigQty - order.ExecutedQty
  let status1 := if remaining = 0 then OrderStatus.Filled else status0
  { OrderID := toString order.OrderID
    Status := status1
    Amount := order.OrigQty
    FilledAmount := order.ExecutedQty
    RemainingAmount := remaining
    Rate := order.Price
    CreatedAt := order.Time / 1000
    Side := order.Side.toLower }

/-- Per-symbol precision details (binance_wrapper.go `symbolDetails`). -/
structure symbolDetails where
  PriceDecimalPlaces : Int
  AmountDecimalPlaces : Int
  MinAmount : ℚ
  MinTotal : ℚ
deriving DecidableEq, Repr

/-- Binance `currencyLimits`: map from the pair's `Display "/" false` key to
its symbol details, modelled as an association list. -/
structure currencyLimits where
  exchangeName : String
  data : List (String × symbolDetails)
deriving DecidableEq, Repr

/-- Association-list lookup standing for the Go map read `cl.data[k]`. -/
def currencyLimits.find (cl : currencyLimits) (k : String) : Option symbolDetails :=
  (cl.data.find? (fun e => e.fst = k)).map Prod.snd

/-- Embedding of Binance `currencyLimits.GetPriceDecimalPlaces`
(binance_wrapper.go lines 337-343): returns the stored value when the key
exists and 0 otherwise. -/
def currencyLimits.GetPriceDecimalPlaces (cl : currencyLimits) (k : String) : Int :=
  match cl.find k with
  | some v => v.PriceDecimalPlaces
  | none => 0

/-- Embedding of Binance `currencyLimits.GetAmountDecimalPlaces`
(binance_wrapper.go lines 347-353): returns the stored value when the key
exists and 0 otherwise. -/
def currencyLimits.GetAmountDecimalPlaces (cl : currencyLimits) (k : String) : Int :=
  match cl.find k with
  | some v => v.AmountDecimalPlaces
  | none => 0

end Binance

namespace Gemini

/-- Per-pair limits info (gemini.go `limitsInfo`). -/
structure limitsInfo where
  PriceDecimalPlaces : Int
  AmountDecimalPlaces : Int
  MinAmount : ℚ
deriving DecidableEq, Repr

/-- Gemini `currencyLimits` (gemini.go lines 151-154): map from upper-cased
concatenated pair symbol to limits info, modelled as an association list. -/
structure currencyLimits where
  info : List (String × limitsInfo)
deriving DecidableEq, Repr

/-- Association-list lookup standing for the Go map read `l.info[k]`. -/
def currencyLimits.find (cl : currencyLimits) (k : String) : Option limitsInfo :=
  (cl.info.find? (fun e => e.fst = k)).map Prod.snd

/-- Embedding of Gemini `currencyLimits.GetPriceDecimalPlaces`
(gemini.go lines 186-192): returns the stored value when the key exists
and -1 otherwise. -/
def currencyLimits.GetPriceDecimalPlaces (cl : currencyLimits) (k : String) : Int :=
  match cl.find k with
  | some v => v.PriceDecimalPlaces
  | none => -1

/-- Embedding of Gemini `currencyLimits.GetAmountDecimalPlaces`
(gemini.go lines 196-202): returns the stored value when the key exists
and -1 otherwise. -/
def currencyLimits.GetAmountDecimalPlaces (cl : currencyLimits) (k : String) : Int :=
  match cl.find k with
  | some v => v.AmountDecimalPlaces
  | none => -1

/-- The fixed Gemini limits table built by `newCurrencyLimits`
(gemini.go lines 156-182). -/
def newCurrencyLimits : currencyLimits :=
  { info :=
      [ ("BTCUSD", { PriceDecimalPlaces := 2, AmountDecimalPlaces := 8, MinAmount := 1 / 100000 }),
        ("ETHUSD", { PriceDecimalPlaces := 2, AmountDecimalPlaces := 6, MinAmount := 1 / 1000 }),
        ("ETHBTC", { PriceDecimalPlaces := 5, AmountDecimalPlaces := 6, MinAmount := 1 / 1000 }) ] }

end Gemini

namespace Orderbook

/-- An orderbook entry (orderbook.Item). -/
structure Item where
  Price : ℚ
  Amount : ℚ
deriving DecidableEq, Repr

/-- An orderbook snapshot (orderbook.Base); `empty` is the Go zero value
`orderbook.Base{}` produced by a plain variable declaration. -/
structure Base where
  Bids : List Item
  Asks : List Item
deriving DecidableEq, Repr

/-- The Go zero value `orderbook.Base{}`. -/
def Base.empty : Base := { Bids := [], Asks := [] }

/-- The per-exchange orderbook store (orderbook.Orderbooks), keyed by
(exchange name, formatted pair, asset type). -/
structure Orderbooks where
  books : List ((String × String × String) × Base)
deriving DecidableEq, Repr

/-- Modelled from the spec: orderbook.Orderbooks.GetOrderbook (the
exchanges/orderbook package is not under src/) returns the stored snapshot
for the key when one exists, and otherwise signals not-found through a
non-nil error alongside the zero-value book (spec 4.4: if no snapshot
exists yet for a key, get signals not found rather than fabricating an
empty book). -/
def Orderbooks.GetOrderbook (obs : Orderbooks) (exchName p assetType : String) :
    Base × Option String :=
  match (obs.books.find? (fun e => e.fst = (exchName, p, assetType))).map Prod.snd with
  | some b => (b, none)
  | none => (Base.empty, some "no orderbook found")

end Orderbook

namespace Ticker

/-- A ticker snapshot (ticker.Price); fields as listed in the spec's data
model. -/
structure Price where
  Ask : ℚ
  Bid : ℚ
  Last : ℚ
  Low : ℚ
  High : ℚ
  Volume : ℚ
deriving DecidableEq, Repr

/-- The Go zero value `ticker.Price{}`. -/
def Price.empty : Price := { Ask := 0, Bid := 0, Last := 0, Low := 0, High := 0, Volume := 0 }

/-- The ticker store, keyed like the orderbook store. -/
structure Tickers where
  tickers : List ((String × String × String) × Price)
deriving DecidableEq, Repr

/-- Modelled from the spec: ticker.GetTicker (the exchanges/ticker package
is not under src/) returns the stored snapshot for the key when one
exists, and otherwise a non-nil error alongside the zero value
(spec 4.4). -/
def Tickers.GetTicker (ts : Tickers) (exchName p assetType : String) :
    Price × Option String :=
  match (ts.tickers.find? (fun e => e.fst = (exchName, p, assetType))).map Prod.snd with
  | some t => (t, none)
  | none => (Price.empty, some "no ticker found")

end Ticker

namespace Binance

/-- Embedding of `Binance.GetOrderbookEx` (binance_wrapper.go lines 120-126).
The cache read is `Orderbooks.GetOrderbook`; the network fetch performed by
`UpdateOrderbook` is abstracted into the `updateResult` parameter (what
`b.UpdateOrderbook(p, assetType)` would return).  The source tests
`if err == nil { return b.UpdateOrderbook(p, assetType) }` and otherwise
returns `ob, nil`. -/
def GetOrderbookEx (obs : Orderbook.Orderbooks) (p assetType : String)
    (updateResult : Orderbook.Base × Option String) : Orderbook.Base × Option String :=
  let r := obs.GetOrderbook "Binance" p assetType
  match r.snd with
  | none => updateResult
  | some _ => (r.fst, none)

end Binance

namespace Liqui

/-- Embedding of `Liqui.GetOrderbookEx` (unnamed/part_001 lines 78-84); same
shape as the Binance variant: on `err == nil` it returns the update result,
otherwise `ob, nil`. -/
def GetOrderbookEx (obs : Orderbook.Orderbooks) (p assetType : String)
    (updateResult : Orderbook.Base × Option String) : Orderbook.Base × Option String :=
  let r := obs.GetOrderbook "Liqui" p assetType
  match r.snd with
  | none => updateResult
  | some _ => (r.fst, none)

/-- Embedding of `Liqui.GetTickerPrice` (unnamed/part_001 lines 69-75): on a
cache miss (`err != nil`) it returns the result of `UpdateTicker`
(abstracted into `updateResult`), otherwise the cached snapshot with a nil
error. -/
def GetTickerPrice (ts : Ticker.Tickers) (p assetType : String)
    (updateResult : Ticker.Price × Option String) : Ticker.Price × Option String :=
  let r := ts.GetTicker "Liqui" p assetType
  match r.snd with
  | some _ => updateResult
  | none => (r.fst, none)

end Liqui

/-- Error kind of Go's strconv.ParseInt. -/
inductive NumError where
  | ErrSyntax
  | ErrRange
deriving DecidableEq, Repr

/-- Decimal digit value of a character, if it is a digit. -/
def digitVal (c : Char) : Option Nat :=
  if 48 ≤ c.toNat ∧ c.toNat ≤ 57 then some (c.toNat - 48) else none

/-- Accumulate decimal digits into a natural number; fails on the first
non-digit. -/
def digitsToNat : List Char → Nat → Option Nat
  | [], acc => some acc
  | c :: cs, acc =>
    match digitVal c with
    | some d => digitsToNat cs (acc * 10 + d)
    | none => none

/-- Modelled from the spec: Go strconv.ParseInt(s, 10, 64) (standard
library, not under src/): an optional sign followed by at least one
decimal digit; a malformed string yields (0, ErrSyntax) and an
out-of-int64-range value yields the clamped bound with ErrRange. -/
def ParseInt (s : String) : Int × Option NumError :=
  match s.toList with
  | [] => (0, some NumError.ErrSyntax)
  | c :: rest =>
    let signed : Bool × List Char :=
      if c = '-' then (true, rest)
      else if c = '+' then (false, rest)
      else (false, c :: rest)
    match signed.snd with
    | [] => (0, some NumError.ErrSyntax)
    | ds =>
      match digitsToNat ds 0 with
      | none => (0, some NumError.ErrSyntax)
      | some n =>
        let v : Int := if signed.fst then -(n : Int) else (n : Int)
        if v > 2 ^ 63 - 1 then (2 ^ 63 - 1, some NumError.ErrRange)
        else if v < -(2 ^ 63) then (-(2 ^ 63), some NumError.ErrRange)
        else (v, none)

/-- Observable outcome of a CancelOrder call: either the function returned
without issuing the cancel HTTP request (carrying the error value it
returned), or it issued the cancel request for the given numeric ID. -/
inductive CancelAction where
  | noRequest (err : Option NumError)
  | cancelRequested (id : Int)
deriving DecidableEq, Repr

namespace Kraken

/-- Embedding of `Kraken.CancelOrder` (kraken.go lines 548-555).  The source
reads `if orderID, err = strconv.ParseInt(orderStr, 10, 64); err == nil {
return err }` and then `return k.cancelOrder(orderID)`: when the parse
succeeds it returns the nil error without issuing anything, and when the
parse fails it issues the cancel request with the value ParseInt returned
alongside the error. -/
def CancelOrder (orderStr : String) : CancelAction :=
  let r := ParseInt orderStr
  match r.snd with
  | none => CancelAction.noRequest none
  | some _ => CancelAction.cancelRequested r.fst

end Kraken

namespace Binance

/-- Embedding of `Binance.CancelOrder` (binance_wrapper.go lines 207-214):
a parse failure is returned to the caller and no request is issued;
otherwise `DeleteOrder` is called with the parsed ID. -/
def CancelOrder (orderID : String) : CancelAction :=
  let r := ParseInt orderID
  match r.snd with
  | some e => CancelAction.noRequest (some e)
  | none => CancelAction.cancelRequested r.fst

end Binance

namespace Gemini

/-- Embedding of `Gemini.CancelOrder` (gemini.go lines 380-388): a parse
failure is returned to the caller and no request is issued; otherwise
`CancelOrderEx` issues the cancel request with the parsed ID. -/
def CancelOrder (orderStr : String) : CancelAction :=
  let r := ParseInt orderStr
  match r.snd with
  | some e => CancelAction.noRequest (some e)
  | none => CancelAction.cancelRequested r.fst

end Gemini

/-- Two's-complement wrap of an integer into the int64 range, used where
Go's int64 arithmetic may overflow. -/
def int64wrap (x : Int) : Int := (x + 2 ^ 63) % 2 ^ 64 - 2 ^ 63

namespace Nonce

/-- Modelled from the spec: `Nonce.Inc` (the exchanges nonce package is not
under src/) increments the int64 counter (spec 4.2: a 64-bit integer
counter incremented after the first use). -/
def Inc (n : Int) : Int := int64wrap (n + 1)

end Nonce

namespace Kraken

/-- One step of the Kraken nonce policy (kraken.go lines 580-584): if the
counter reads 0 it is seeded from the current wall-clock time in
nanoseconds (`seedTime`), otherwise it is incremented.  The resulting
counter value is what gets attached as the request's nonce. -/
def nonceNext (seedTime : Int) (n : Int) : Int :=
  if n = 0 then seedTime else Nonce.Inc n

/-- The nonce counter after k authenticated requests on one credential,
starting from the zero-initialized counter; `nonceValue seedTime k` for
`k ≥ 1` is the nonce attached to the k-th request. -/
def nonceValue (seedTime : Int) : Nat → Int
  | 0 => 0
  | k + 1 => nonceNext seedTime (nonceValue seedTime k)

/-- Kraken API URL constant (kraken.go line 21). -/
def KRAKEN_API_URL : String := "https://api.kraken.com"

/-- Kraken API version constant (kraken.go line 22). -/
def KRAKEN_API_VERSION : String := "0"

/-- The fields of the Kraken exchange value read by
`SendAuthenticatedHTTPRequest`. -/
structure KrakenAuth where
  AuthenticatedAPISupport : Bool
  Name : String
  APIKey : String
  APISecret : String
  Nonce : Int
deriving DecidableEq, Repr

/-- External collaborators of the authenticated request path, abstracted as
functions: base64-decoding the secret, the HTTP transport, and whether the
response body JSON-decodes. -/
structure NetEnv where
  base64Decode : String → Except String (List Nat)
  sendHTTP : String → Except String String
  jsonDecodeOk : String → Bool

/-- Observable outcome of one authenticated request: the error returned to
the caller (none on success), the URLs actually sent to over the network
in order, and the nonce counter after the call. -/
structure AuthRequestResult where
  err : Option String
  networkCalls : List String
  nonce : Int
deriving DecidableEq, Repr

/-- Modelled from the spec: the credentials-missing error message built by
`fmt.Errorf(exchange.WarningAuthenticatedRequestWithoutCredentialsSet,
name)` (the exchange package constant is not under src/); the spec calls
it CredentialsMissingError. -/
def credentialsError (name : String) : String :=
  name ++ " authenticated HTTP request called but authenticated API support is not enabled"

/-- Embedding of `Kraken.SendAuthenticatedHTTPRequest` (kraken.go lines
574-620): the credentials precondition, the nonce step, the base64 decode
of the secret, the single HTTP POST, and the JSON decode of the response.
The HMAC-SHA512 signature computation (common package, not under src/) is
a pure local computation whose value no claim depends on, so it is not
modelled; the network calls recorded are exactly the
`common.SendHTTPRequest` invocations. -/
def SendAuthenticatedHTTPRequest (k : KrakenAuth) (env : NetEnv) (seedTime : Int)
    (method : String) : AuthRequestResult :=
  if !k.AuthenticatedAPISupport then
    { err := some (credentialsError k.Name), networkCalls := [], nonce := k.Nonce }
  else
    let path := "/" ++ KRAKEN_API_VERSION ++ "/private/" ++ method
    let nonce' := nonceNext seedTime k.Nonce
    match env.base64Decode k.APISecret with
    | Except.error e => { err := some e, networkCalls := [], nonce := nonce' }
    | Except.ok _ =>
      match env.sendHTTP (KRAKEN_API_URL ++ path) with
      | Except.error e =>
        { err := some e, networkCalls := [KRAKEN_API_URL ++ path], nonce := nonce' }
      | Except.ok resp =>
        if env.jsonDecodeOk resp then
          { err := none, networkCalls := [KRAKEN_API_URL ++ path], nonce := nonce' }
        else
          { err := some "Unable to JSON Unmarshal response.",
            networkCalls := [KRAKEN_API_URL ++ path], nonce := nonce' }

end Kraken

namespace Gemini

/-- Gemini production API URL (gemini.go line 20). -/
def geminiAPIURL : String := "https://api.gemini.com"

/-- Gemini sandbox API URL (gemini.go line 21). -/
def geminiSandboxAPIURL : String := "https://api.sandbox.gemini.com"

/-- Gemini API version (gemini.go line 22). -/
def geminiAPIVersion : String := "1"

/-- The fields of the Gemini exchange value read by
`SendAuthenticatedHTTPRequest`. -/
structure GeminiAuth where
  AuthenticatedAPISupport : Bool
  Name : String
  APIKey : String
  APISecret : String
  APIUrl : String
deriving DecidableEq, Repr

/-- External collaborators of the Gemini authenticated request path:
JSON-encoding the request payload, the HTTP transport, and the decoded
error-capture / result of the response body. -/
structure GeminiNetEnv where
  jsonEncode : Except String String
  sendHTTP : String → String → Except String String
  errorCaptured : String → Option String
  jsonDecodeOk : String → Bool

/-- Embedding of `Gemini.SendAuthenticatedHTTPRequest` (gemini.go lines
563-614): the credentials precondition, the payload JSON encode, the
single HTTP request, the error-capture check and the final JSON decode.
The HMAC-SHA384 signature over the base64 payload (common package, not
under src/) is a pure local computation whose value no claim depends on,
so it is not modelled. -/
def SendAuthenticatedHTTPRequest (g : GeminiAuth) (env : GeminiNetEnv)
    (method path : String) : Kraken.AuthRequestResult :=
  if !g.AuthenticatedAPISupport then
    { err := some (Kraken.credentialsError g.Name), networkCalls := [], nonce := 0 }
  else
    match env.jsonEncode with
    | Except.error _ =>
      { err := some "SendAuthenticatedHTTPRequest: Unable to JSON request",
        networkCalls := [], nonce := 0 }
    | Except.ok _ =>
      let url := g.APIUrl ++ "/v1/" ++ path
      match env.sendHTTP method url with
      | Except.error e => { err := some e, networkCalls := [url], nonce := 0 }
      | Except.ok resp =>
        match env.errorCaptured resp with
        | some msg => { err := some msg, networkCalls := [url], nonce := 0 }
        | none =>
          if env.jsonDecodeOk resp then
            { err := none, networkCalls := [url], nonce := 0 }
          else
            { err := some "JSON decode error", networkCalls := [url], nonce := 0 }

end Gemini

namespace Binance

/-- Error returned by a single fetch of open orders: the distinguished
rate-limited sentinel (`exchange.WarningHTTPRequestRateLimited()`, compared
by identity in the source) or any other error. -/
inductive FetchErr where
  | rateLimited
  | other (msg : String)
deriving DecidableEq, Repr

/-- Per-symbol behaviour of the exchange during one GetOrders call: the
live open orders, the orders cached from the last successful fetch, and
which error (if any) each symbol's fetch ends with. -/
structure FetchEnv where
  live : String → List Order
  lastOpenOrders : String → List Order
  outcome : String → Option FetchErr

/-- Modelled from the spec: `Binance.FetchOpenOrders` (binance.go, not
under src/); per its documented contract (binance_wrapper.go lines 230-232
and spec 6) it returns the live open orders on success, and when rate
limited it returns the set of orders obtained during the last successful
fetch together with the identity-comparable rate-limited sentinel; any
other failure returns no orders and that error. -/
def FetchOpenOrders (env : FetchEnv) (symbol : String) : List Order × Option FetchErr :=
  match env.outcome symbol with
  | none => (env.live symbol, none)
  | some FetchErr.rateLimited => (env.lastOpenOrders symbol, some FetchErr.rateLimited)
  | some (FetchErr.other msg) => ([], some (FetchErr.other msg))

/-- The per-pair loop of `Binance.GetOrders` (binance_wrapper.go lines
238-252): fetch each pair's open orders, counting rate-limited fetches,
converting and accumulating the returned orders, and failing the whole
call on any other error. -/
def GetOrdersLoop (env : FetchEnv) : List String → List ExchOrder → Nat →
    Except FetchErr (List ExchOrder × Nat)
  | [], ret, cnt => Except.ok (ret, cnt)
  | p :: ps, ret, cnt =>
    let r := FetchOpenOrders env p
    match r.snd with
    | some FetchErr.rateLimited =>
      GetOrdersLoop env ps (ret ++ r.fst.map convertOrderToExchangeOrder) (cnt + 1)
    | some (FetchErr.other msg) => Except.error (FetchErr.other msg)
    | none => GetOrdersLoop env ps (ret ++ r.fst.map convertOrderToExchangeOrder) cnt

/-- Embedding of `Binance.GetOrders` (binance_wrapper.go lines 233-271);
pairs are represented by their formatted symbols (the source applies
`CurrencyPairToSymbol` to each pair).  With a non-empty pair list the
rate-limited sentinel is returned as the call's error exactly when every
pair's fetch was rate limited; with an empty list a single fetch over all
symbols is performed. -/
def GetOrders (env : FetchEnv) (pairs : List String) :
    Except FetchErr (List ExchOrder × Option FetchErr) :=
  if pairs.length > 0 then
    match GetOrdersLoop env pairs [] 0 with
    | Except.error e => Except.error e
    | Except.ok (ret, cnt) =>
      Except.ok (ret, if cnt = pairs.length then some FetchErr.rateLimited else none)
  else
    let r := FetchOpenOrders env ""
    match r.snd with
    | some FetchErr.rateLimited =>
      Except.ok (r.fst.map convertOrderToExchangeOrder, some FetchErr.rateLimited)
    | some (FetchErr.other msg) => Except.error (FetchErr.other msg)
    | none => Except.ok (r.fst.map convertOrderToExchangeOrder, none)

end Binance

namespace Pair

/-- ASCII upper-casing of one character (the case rule applied by the pair
display operation). -/
def asciiUpperChar (c : Char) : Char :=
  if 97 ≤ c.toNat ∧ c.toNat ≤ 122 then Char.ofNat (c.toNat - 32) else c

/-- ASCII lower-casing of one character. -/
def asciiLowerChar (c : Char) : Char :=
  if 65 ≤ c.toNat ∧ c.toNat ≤ 90 then Char.ofNat (c.toNat + 32) else c

/-- Apply the format's case rule to a code. -/
def applyCase (upper : Bool) (l : List Char) : List Char :=
  match upper with
  | true => l.map asciiUpperChar
  | false => l.map asciiLowerChar

/-- A currency pair: base (amount) currency first, quote (price) currency
second (currency/pair package `CurrencyPair`, field names from the source
callers). -/
structure CurrencyPair where
  FirstCurrency : String
  SecondCurrency : String
deriving DecidableEq, Repr

/-- Per-exchange pair format (config.CurrencyPairFormat): delimiter and
case rule. -/
structure CurrencyPairFormat where
  Delimiter : String
  Uppercase : Bool
deriving DecidableEq, Repr

/-- Modelled from the spec: the pair display operation (the currency/pair
package is not under src/) renders base, delimiter, quote and applies the
format's case rule (spec 3 and 4.1). -/
def display (p : CurrencyPair) (fmt : CurrencyPairFormat) : String :=
  String.mk (applyCase fmt.Uppercase p.FirstCurrency.toList ++ fmt.Delimiter.toList ++
    applyCase fmt.Uppercase p.SecondCurrency.toList)

/-- Split a character list at every occurrence of the separator
character. -/
def splitOnChar (c : Char) : List Char → List (List Char)
  | [] => [[]]
  | x :: xs =>
    if x = c then [] :: splitOnChar c xs
    else
      match splitOnChar c xs with
      | [] => [[x]]
      | h :: t => (x :: h) :: t

/-- Failure of the pair parse operation (spec 7: FormatError). -/
inductive FormatError where
  | cannotSplit (s : String)
deriving DecidableEq, Repr

/-- Modelled from the spec: the pair parse operation (the currency/pair
package is not under src/) is the inverse of display under a known format:
it splits the string on the format's delimiter and fails with a
FormatError if the string cannot be split into exactly two non-empty codes
(spec 4.1).  The formats observed in the source use an empty or
single-character delimiter; an empty delimiter offers no split point, so
parsing under it fails.  `parseWithDelim` is the single-character-delimiter
case and `parse` dispatches on the format's delimiter. -/
def parseWithDelim (s : String) (c : Char) : Except FormatError CurrencyPair :=
  match splitOnChar c s.toList with
  | [a, b] =>
    if a = [] ∨ b = [] then Except.error (FormatError.cannotSplit s)
    else Except.ok { FirstCurrency := String.mk a, SecondCurrency := String.mk b }
  | _ => Except.error (FormatError.cannotSplit s)

def parse (s : String) (fmt : CurrencyPairFormat) : Except FormatError CurrencyPair :=
  match fmt.Delimiter.toList with
  | [c] => parseWithDelim s c
  | _ => Except.error (FormatError.cannotSplit s)

/-- Case-normalization of a code used by pair equality (spec 4.1: two pairs
are equal iff base and quote match exactly, case-normalized). -/
def normCode (s : String) : String := String.mk (s.toList.map asciiUpperChar)

/-- Case-normalized pair equality (spec 4.1). -/
def pairEquiv (p q : CurrencyPair) : Prop :=
  normCode p.FirstCurrency = normCode q.FirstCurrency ∧
  normCode p.SecondCurrency = normCode q.SecondCurrency

instance (p q : CurrencyPair) : Decidable (pairEquiv p q) := by
  unfold pairEquiv
  infer_instance

end Pair

namespace Gemini

/-- The fields of a Gemini session value written by `AddSession`
(gemini.go struct Gemini, lines 70-74, restricted to the fields the
function touches). -/
structure GeminiSession where
  APIKey : String
  APISecret : String
  Role : String
  RequiresHeartBeat : Bool
  APIUrl : String
deriving DecidableEq, Repr

/-- Association-list lookup standing for the Go map read
`Session[sessionID]`. -/
def sessionFind (session : List (Int × GeminiSession)) (sessionID : Int) :
    Option GeminiSession :=
  (session.find? (fun e => e.fst = sessionID)).map Prod.snd

/-- Embedding of gemini.go `AddSession` (lines 77-100): if the sessionID is
already present in the registry the call returns an error and stores
nothing; otherwise the session value receives the given API key, secret,
role and heartbeat flag, its URL is the sandbox URL when isSandbox is set
and the production URL otherwise, and it is stored under the sessionID.
The nil-map initialization of the Go global corresponds to starting from
the empty registry.  Returns the updated registry and the error. -/
def AddSession (session : List (Int × GeminiSession)) (g : GeminiSession)
    (sessionID : Int) (apiKey apiSecret role : String)
    (needsHeartbeat isSandbox : Bool) : List (Int × GeminiSession) × Option String :=
  match sessionFind session sessionID with
  | some _ => (session, some "sessionID already being used")
  | none =>
    let g1 := { g with
      APIKey := apiKey
      APISecret := apiSecret
      Role := role
      RequiresHeartBeat := needsHeartbeat
      APIUrl := if isSandbox then geminiSandboxAPIURL else geminiAPIURL }
    ((sessionID, g1) :: session, none)

end Gemini

namespace Binance

/-- A concrete fetch environment in which every symbol's fetch is rate
limited and one order is cached from the last successful fetch. -/
def sampleRateLimitedEnv : FetchEnv :=
  { live := fun _ => []
    lastOpenOrders := fun _ =>
      [⟨9, OrderStatusNew, 3, 1, 5, 7000, "ETHBTC", "BUY", "LIMIT"⟩]
    outcome := fun _ => some FetchErr.rateLimited }

end Binance

/-!
Theorems.  Helper lemmas come first; each claim's theorem carries a doc
comment naming the claim.
-/

/-- C1: the claim says GetOrderbookEx returns the cached snapshot when one
exists and on a cache miss fetches via UpdateOrderbook and returns the
fresh book rather than fabricating an empty one.  The code does the
opposite: on a miss (first two conjuncts) both the Binance and Liqui
variants return the zero-value empty book with a nil error and ignore the
fetch result entirely, although the fresh book is non-empty (third
conjunct); on a hit (fourth conjunct) they discard the cached snapshot and
return the re-fetched book.  The sibling `Liqui.GetTickerPrice` (fifth
conjunct) follows the intended pattern: on a miss it returns the freshly
fetched ticker. -/
theorem C1_getOrderbookEx_fabricates_empty_book_on_miss :
    (Binance.GetOrderbookEx { books := [] } "ETH/BTC" "SPOT"
        ({ Bids := [{ Price := 1, Amount := 2 }], Asks := [] }, none) =
      (Orderbook.Base.empty, none)) ∧
    (Liqui.GetOrderbookEx { books := [] } "ETH/BTC" "SPOT"
        ({ Bids := [{ Price := 1, Amount := 2 }], Asks := [] }, none) =
      (Orderbook.Base.empty, none)) ∧
    ({ Bids := [{ Price := 1, Amount := 2 }], Asks := [] } : Orderbook.Base) ≠
      Orderbook.Base.empty ∧
    (Binance.GetOrderbookEx
        { books := [(("Binance", "ETH/BTC", "SPOT"),
          { Bids := [{ Price := 1, Amount := 2 }], Asks := [] })] }
        "ETH/BTC" "SPOT" ({ Bids := [], Asks := [{ Price := 9, Amount := 9 }] }, none) =
      ({ Bids := [], Asks := [{ Price := 9, Amount := 9 }] }, none)) ∧
    (Liqui.GetTickerPrice { tickers := [] } "ETH/BTC" "SPOT"
        ({ Ask := 1, Bid := 2, Last := 3, Low := 4, High := 5, Volume := 6 }, none) =
      ({ Ask := 1, Bid := 2, Last := 3, Low := 4, High := 5, Volume := 6 }, none)) := by
  refine ⟨rfl, rfl, ?_, rfl, rfl⟩
  intro h
  simpa [Orderbook.Base.empty] using congrArg Orderbook.Base.Bids h

/-- C2: the claim says both limits accessors return the sentinel -1 for a
pair with no entry.  The Gemini accessors do (conjuncts four and five) but
the Binance accessors return 0 (conjuncts one and two), indistinguishable
from a stored zero, contradicting their own doc comment that -1 should be
used when the value is not defined. -/
theorem C2_binance_missing_limits_entry_returns_zero :
    Binance.currencyLimits.GetPriceDecimalPlaces
      { exchangeName := "Binance", data := [] } "ETH/BTC" = 0 ∧
    Binance.currencyLimits.GetAmountDecimalPlaces
      { exchangeName := "Binance", data := [] } "ETH/BTC" = 0 ∧
    (0 : Int) ≠ -1 ∧
    Gemini.currencyLimits.GetPriceDecimalPlaces Gemini.newCurrencyLimits "ABCXYZ" = -1 ∧
    Gemini.currencyLimits.GetAmountDecimalPlaces Gemini.newCurrencyLimits "ABCXYZ" = -1 := by
  refine ⟨rfl, rfl, by decide, rfl, rfl⟩

/-- C3: for every raw order whose computed remaining amount (amount minus
filled amount) is zero, the normalizer sets the canonical status to
Filled, overriding whatever raw status the exchange reported. -/
theorem C3_zero_remaining_forces_filled (order : Binance.Order)
    (h : order.OrigQty - order.ExecutedQty = 0) :
    (Binance.convertOrderToExchangeOrder order).Status = OrderStatus.Filled ∧
    (Binance.convertOrderToExchangeOrder order).RemainingAmount =
      order.OrigQty - order.ExecutedQty := by
  unfold Binance.convertOrderToExchangeOrder
  simp [h]

/-- Witness for C3 at a concrete order whose raw status is the stale
partially-filled value while the full amount is executed. -/
theorem C3_zero_remaining_forces_filled_witness :
    (⟨7, Binance.OrderStatusPartial, 2, 2, 1, 4000, "ETHBTC", "BUY",
        "LIMIT"⟩ : Binance.Order).OrigQty -
      (⟨7, Binance.OrderStatusPartial, 2, 2, 1, 4000, "ETHBTC", "BUY",
        "LIMIT"⟩ : Binance.Order).ExecutedQty = 0 ∧
    ((Binance.convertOrderToExchangeOrder
        ⟨7, Binance.OrderStatusPartial, 2, 2, 1, 4000, "ETHBTC", "BUY",
          "LIMIT"⟩).Status = OrderStatus.Filled ∧
      (Binance.convertOrderToExchangeOrder
        ⟨7, Binance.OrderStatusPartial, 2, 2, 1, 4000, "ETHBTC", "BUY",
          "LIMIT"⟩).RemainingAmount =
        (⟨7, Binance.OrderStatusPartial, 2, 2, 1, 4000, "ETHBTC", "BUY",
          "LIMIT"⟩ : Binance.Order).OrigQty -
        (⟨7, Binance.OrderStatusPartial, 2, 2, 1, 4000, "ETHBTC", "BUY",
          "LIMIT"⟩ : Binance.Order).ExecutedQty) :=
  ⟨by simp, C3_zero_remaining_forces_filled _ (by simp)⟩

/-- C4: the claim says every CancelOrder surfaces the parse error and
issues no request for unparseable IDs, and issues the cancel for exactly
the parsed ID otherwise.  Binance and Gemini conform (conjuncts three to
six) but Kraken's condition is inverted: a parseable ID returns a nil
error without issuing any request (first conjunct), and an unparseable
string issues the cancel request with the zero value ParseInt returned
alongside its error (second conjunct). -/
theorem C4_kraken_cancelOrder_inverted :
    Kraken.CancelOrder "12345" = CancelAction.noRequest none ∧
    Kraken.CancelOrder "bogus" = CancelAction.cancelRequested 0 ∧
    Binance.CancelOrder "12345" = CancelAction.cancelRequested 12345 ∧
    Binance.CancelOrder "bogus" = CancelAction.noRequest (some NumError.ErrSyntax) ∧
    Gemini.CancelOrder "12345" = CancelAction.cancelRequested 12345 ∧
    Gemini.CancelOrder "bogus" = CancelAction.noRequest (some NumError.ErrSyntax) := by
  refine ⟨?_, ?_, ?_, ?_, ?_, ?_⟩ <;> decide

/-- C7: the raw-to-canonical status mapping is total: new and
partially-filled map to Active, filled to Filled, canceled, pending-cancel,
expired and rejected to Aborted, every other raw value to Unknown, and no
value outside new and partially-filled is ever mapped to Active. -/
theorem C7_status_mapping_total (s : String)
    (h : ¬(s = Binance.OrderStatusNew ∨ s = Binance.OrderStatusPartial ∨
      s = Binance.OrderStatusFilled ∨ s = Binance.OrderStatusCanceled ∨
      s = Binance.OrderStatusPendingCancel ∨ s = Binance.OrderStatusExpired ∨
      s = Binance.OrderStatusRejected)) :
    Binance.mapOrderStatus Binance.OrderStatusNew = OrderStatus.Active ∧
    Binance.mapOrderStatus Binance.OrderStatusPartial = OrderStatus.Active ∧
    Binance.mapOrderStatus Binance.OrderStatusFilled = OrderStatus.Filled ∧
    Binance.mapOrderStatus Binance.OrderStatusCanceled = OrderStatus.Aborted ∧
    Binance.mapOrderStatus Binance.OrderStatusPendingCancel = OrderStatus.Aborted ∧
    Binance.mapOrderStatus Binance.OrderStatusExpired = OrderStatus.Aborted ∧
    Binance.mapOrderStatus Binance.OrderStatusRejected = OrderStatus.Aborted ∧
    Binance.mapOrderStatus s = OrderStatus.Unknown ∧
    (∀ t : String, Binance.mapOrderStatus t = OrderStatus.Active →
      t = Binance.OrderStatusNew ∨ t = Binance.OrderStatusPartial) := by
  push_neg at h
  obtain ⟨h1, h2, h3, h4, h5, h6, h7⟩ := h
  refine ⟨by decide, by decide, by decide, by decide, by decide, by decide, by decide, ?_, ?_⟩
  · unfold Binance.mapOrderStatus
    rw [if_neg (by tauto), if_neg h3, if_neg (by tauto)]
  · intro t ht
    unfold Binance.mapOrderStatus at ht
    split_ifs at ht with c1 c2 c3
    exact c3

/-- Witness for C7 at a concrete unrecognized raw status. -/
theorem C7_status_mapping_total_witness :
    ¬("HALTED" = Binance.OrderStatusNew ∨ "HALTED" = Binance.OrderStatusPartial ∨
      "HALTED" = Binance.OrderStatusFilled ∨ "HALTED" = Binance.OrderStatusCanceled ∨
      "HALTED" = Binance.OrderStatusPendingCancel ∨ "HALTED" = Binance.OrderStatusExpired ∨
      "HALTED" = Binance.OrderStatusRejected) ∧
    Binance.mapOrderStatus "HALTED" = OrderStatus.Unknown :=
  ⟨by decide, (C7_status_mapping_total "HALTED" (by decide)).2.2.2.2.2.2.2.1⟩

/-- The int64 wrap is the identity on values inside the int64 range. -/
theorem int64wrap_eq_self (x : Int) (h1 : -(2 ^ 63) ≤ x) (h2 : x ≤ 2 ^ 63 - 1) :
    int64wrap x = x := by
  unfold int64wrap
  have e63 : (2 : Int) ^ 63 = 9223372036854775808 := by norm_num
  have e64 : (2 : Int) ^ 64 = 18446744073709551616 := by norm_num
  rw [e63, e64]
  rw [e63] at h1 h2
  rw [Int.emod_eq_of_lt (by omega) (by omega)]
  omega

/-- Closed form of the Kraken nonce counter after k requests: the seed plus
k - 1, as long as no int64 overflow occurs. -/
theorem Kraken.nonceValue_eq_seed_add (seedTime : Int) (N : Nat) (h1 : 0 < seedTime)
    (h2 : seedTime + N ≤ 2 ^ 63 - 1) :
    ∀ k : Nat, 1 ≤ k → k ≤ N →
      Kraken.nonceValue seedTime k = seedTime + ((k - 1 : Nat) : Int) := by
  have e63 : (2 : Int) ^ 63 = 9223372036854775808 := by norm_num
  rw [e63] at h2
  intro k
  induction k with
  | zero => intro h; omega
  | succ n ih =>
    intro _ hk
    cases n with
    | zero =>
      simp [Kraken.nonceValue, Kraken.nonceNext]
    | succ m =>
      have hv : Kraken.nonceValue seedTime (m + 1) = seedTime + ((m + 1 - 1 : Nat) : Int) :=
        ih (by omega) (by omega)
      have hstep : Kraken.nonceValue seedTime (m + 1 + 1) =
          Kraken.nonceNext seedTime (Kraken.nonceValue seedTime (m + 1)) := rfl
      have hne : Kraken.nonceValue seedTime (m + 1) ≠ 0 := by
        rw [hv]
        push_cast
        omega
      rw [hstep, hv] at *
      unfold Kraken.nonceNext
      rw [if_neg hne, hv]
      unfold Nonce.Inc
      rw [int64wrap_eq_self]
      · push_cast
        omega
      · rw [show (2 : Int) ^ 63 = 9223372036854775808 from by norm_num]
        push_cast
        omega
      · rw [show (2 : Int) ^ 63 = 9223372036854775808 from by norm_num]
        push_cast
        push_cast at h2
        omega

/-- C5: for one credential, the nonce attached to each successive
authenticated request is strictly increasing: the first use returns the
wall-clock-nanosecond seed and every later use increments the previous
value, so no nonce repeats or decreases during a run (stated under the
no-int64-overflow side condition, amply satisfied by nanosecond seeds). -/
theorem C5_nonce_strictly_increasing (seedTime : Int) (N : Nat)
    (h1 : 0 < seedTime) (h2 : seedTime + N ≤ 2 ^ 63 - 1) :
    Kraken.nonceValue seedTime 1 = seedTime ∧
    ∀ i j : Nat, 1 ≤ i → i < j → j ≤ N →
      Kraken.nonceValue seedTime i < Kraken.nonceValue seedTime j := by
  constructor
  · simp [Kraken.nonceValue, Kraken.nonceNext]
  · intro i j hi hij hj
    rw [Kraken.nonceValue_eq_seed_add seedTime N h1 h2 i hi (by omega),
        Kraken.nonceValue_eq_seed_add seedTime N h1 h2 j (by omega) hj]
    have h3 : i - 1 < j - 1 := by omega
    omega

/-- Witness for C5 with a nanosecond-scale seed and three requests. -/
theorem C5_nonce_strictly_increasing_witness :
    (0 : Int) < 1500000000000000000 ∧
    ((1500000000000000000 : Int) + ((3 : Nat) : Int) ≤ 2 ^ 63 - 1) ∧
    (Kraken.nonceValue 1500000000000000000 1 = 1500000000000000000 ∧
      ∀ i j : Nat, 1 ≤ i → i < j → j ≤ 3 →
        Kraken.nonceValue 1500000000000000000 i < Kraken.nonceValue 1500000000000000000 j) :=
  ⟨by decide, by decide,
    C5_nonce_strictly_increasing 1500000000000000000 3 (by decide) (by decide)⟩

/-- C6: when authenticated API support is not configured, both the Kraken
and the Gemini authenticated request functions return the
credentials-missing error to the caller before any network call is made
(the recorded network-call list is empty), leaving all other state
untouched. -/
theorem C6_credentials_checked_before_network (k : Kraken.KrakenAuth)
    (g : Gemini.GeminiAuth) (envk : Kraken.NetEnv) (envg : Gemini.GeminiNetEnv)
    (seedTime : Int) (methodk methodg pathg : String)
    (hk : k.AuthenticatedAPISupport = false) (hg : g.AuthenticatedAPISupport = false) :
    Kraken.SendAuthenticatedHTTPRequest k envk seedTime methodk =
      { err := some (Kraken.credentialsError k.Name), networkCalls := [], nonce := k.Nonce } ∧
    Gemini.SendAuthenticatedHTTPRequest g envg methodg pathg =
      { err := some (Kraken.credentialsError g.Name), networkCalls := [], nonce := 0 } := by
  unfold Kraken.SendAuthenticatedHTTPRequest Gemini.SendAuthenticatedHTTPRequest
  rw [hk, hg]
  simp

/-- Witness for C6 at concrete unconfigured exchange values. -/
theorem C6_credentials_checked_before_network_witness :
    ((⟨false, "Kraken", "", "", 0⟩ : Kraken.KrakenAuth).AuthenticatedAPISupport = false) ∧
    ((⟨false, "Gemini", "", "", ""⟩ : Gemini.GeminiAuth).AuthenticatedAPISupport = false) ∧
    (Kraken.SendAuthenticatedHTTPRequest ⟨false, "Kraken", "", "", 0⟩
        ⟨fun _ => Except.ok [], fun _ => Except.ok "", fun _ => true⟩ 1 "Balance" =
      { err := some (Kraken.credentialsError "Kraken"), networkCalls := [], nonce := 0 } ∧
     Gemini.SendAuthenticatedHTTPRequest ⟨false, "Gemini", "", "", ""⟩
        ⟨Except.ok "", fun _ _ => Except.ok "", fun _ => none, fun _ => true⟩ "POST" "orders" =
      { err := some (Kraken.credentialsError "Gemini"), networkCalls := [], nonce := 0 }) :=
  ⟨rfl, rfl,
    C6_credentials_checked_before_network ⟨false, "Kraken", "", "", 0⟩
      ⟨false, "Gemini", "", "", ""⟩
      ⟨fun _ => Except.ok [], fun _ => Except.ok "", fun _ => true⟩
      ⟨Except.ok "", fun _ _ => Except.ok "", fun _ => none, fun _ => true⟩
      1 "Balance" "POST" "orders" rfl rfl⟩

/-- The GetOrders per-pair loop fails exactly when some remaining pair's
fetch ends with a non-rate-limit error. -/
theorem Binance.getOrdersLoop_error_iff (env : Binance.FetchEnv) :
    ∀ (ps : List String) (acc : List Binance.ExchOrder) (cnt : Nat),
      (∃ e, Binance.GetOrdersLoop env ps acc cnt = Except.error e) ↔
        ∃ p ∈ ps, ∃ msg, env.outcome p = some (Binance.FetchErr.other msg) := by
  intro ps
  induction ps with
  | nil =>
    intro acc cnt
    simp [Binance.GetOrdersLoop]
  | cons p ps ih =>
    intro acc cnt
    cases houtcome : env.outcome p with
    | none =>
      simp only [Binance.GetOrdersLoop, Binance.FetchOpenOrders, houtcome]
      rw [ih _ _]
      simp [houtcome]
    | some fe =>
      cases fe with
      | rateLimited =>
        simp only [Binance.GetOrdersLoop, Binance.FetchOpenOrders, houtcome]
        rw [ih _ _]
        simp [houtcome]
      | other msg =>
        simp only [Binance.GetOrdersLoop, Binance.FetchOpenOrders, houtcome]
        constructor
        · intro _
          exact ⟨p, List.mem_cons_self p ps, msg, houtcome⟩
        · intro _
          exact ⟨Binance.FetchErr.other msg, rfl⟩

/-- Closed form of the GetOrders loop when no pair fails hard: all fetched
orders are appended in order and the rate-limited fetches are counted. -/
theorem Binance.getOrdersLoop_ok (env : Binance.FetchEnv) :
    ∀ (ps : List String) (acc : List Binance.ExchOrder) (cnt : Nat),
      (∀ p ∈ ps, ∀ msg, env.outcome p ≠ some (Binance.FetchErr.other msg)) →
      Binance.GetOrdersLoop env ps acc cnt =
        Except.ok
          (acc ++ ps.flatMap
              (fun p => ((Binance.FetchOpenOrders env p).fst).map
                Binance.convertOrderToExchangeOrder),
            cnt + ps.countP
              (fun p => decide (env.outcome p = some Binance.FetchErr.rateLimited))) := by
  intro ps
  induction ps with
  | nil =>
    intro acc cnt h
    simp [Binance.GetOrdersLoop]
  | cons p ps ih =>
    intro acc cnt h
    have hps : ∀ q ∈ ps, ∀ msg, env.outcome q ≠ some (Binance.FetchErr.other msg) :=
      fun q hq => h q (List.mem_cons_of_mem p hq)
    cases houtcome : env.outcome p with
    | none =>
      simp only [Binance.GetOrdersLoop, Binance.FetchOpenOrders, houtcome]
      rw [ih _ _ hps]
      simp [List.countP_cons, List.flatMap_cons, houtcome, Binance.FetchOpenOrders,
        List.append_assoc]
    | some fe =>
      cases fe with
      | rateLimited =>
        simp only [Binance.GetOrdersLoop, Binance.FetchOpenOrders, houtcome]
        rw [ih _ _ hps]
        simp [List.countP_cons, List.flatMap_cons, houtcome, Binance.FetchOpenOrders,
          List.append_assoc]
        omega
      | other msg =>
        exact absurd houtcome (h p (List.mem_cons_self p ps) msg)

/-- C8: with a non-empty pair list, GetOrders fails exactly when some
pair's fetch fails with a non-rate-limit error; when no pair fails hard it
returns the concatenation of every pair's fetched orders, where a
rate-limited pair contributes the orders obtained during the last
successful fetch, and reports the rate-limited sentinel as its error
exactly when every requested pair was rate limited. -/
theorem C8_getOrders_rate_limit_aggregation (env : Binance.FetchEnv)
    (pairs : List String) (hne : pairs ≠ []) :
    ((∃ e, Binance.GetOrders env pairs = Except.error e) ↔
      ∃ p ∈ pairs, ∃ msg, env.outcome p = some (Binance.FetchErr.other msg)) ∧
    ((∀ p ∈ pairs, ∀ msg, env.outcome p ≠ some (Binance.FetchErr.other msg)) →
      Binance.GetOrders env pairs =
        Except.ok
          (pairs.flatMap
              (fun p => ((Binance.FetchOpenOrders env p).fst).map
                Binance.convertOrderToExchangeOrder),
            if ∀ p ∈ pairs, env.outcome p = some Binance.FetchErr.rateLimited then
              some Binance.FetchErr.rateLimited
            else none)) ∧
    (∀ p ∈ pairs, env.outcome p = some Binance.FetchErr.rateLimited →
      (Binance.FetchOpenOrders env p).fst = env.lastOpenOrders p) := by
  have hlen : pairs.length > 0 := List.length_pos.mpr hne
  refine ⟨?_, ?_, ?_⟩
  · unfold Binance.GetOrders
    rw [if_pos hlen]
    cases hl : Binance.GetOrdersLoop env pairs [] 0 with
    | error e =>
      constructor
      · intro _
        exact (Binance.getOrdersLoop_error_iff env pairs [] 0).mp ⟨e, hl⟩
      · intro _
        exact ⟨e, rfl⟩
    | ok rc =>
      obtain ⟨ret, cnt⟩ := rc
      constructor
      · rintro ⟨e, he⟩
        simp at he
      · intro hr
        obtain ⟨e, he⟩ := (Binance.getOrdersLoop_error_iff env pairs [] 0).mpr hr
        rw [hl] at he
        simp at he
  · intro hno
    unfold Binance.GetOrders
    rw [if_pos hlen, Binance.getOrdersLoop_ok env pairs [] 0 hno]
    simp only [List.nil_append, Nat.zero_add]
    have hiff :
        (List.countP (fun p => decide (env.outcome p = some Binance.FetchErr.rateLimited))
            pairs = pairs.length) ↔
          (∀ p ∈ pairs, env.outcome p = some Binance.FetchErr.rateLimited) := by
      rw [List.countP_eq_length]
      constructor
      · intro hall q hq
        exact of_decide_eq_true (hall q hq)
      · intro hall q hq
        exact decide_eq_true (hall q hq)
    rw [if_congr hiff rfl rfl]
  · intro p hp hrl
    simp [Binance.FetchOpenOrders, hrl]

/-- Witness for C8 at a single-pair call whose fetch is rate limited. -/
theorem C8_getOrders_rate_limit_aggregation_witness :
    (["ETHBTC"] : List String) ≠ [] ∧
    (((∃ e, Binance.GetOrders Binance.sampleRateLimitedEnv ["ETHBTC"] = Except.error e) ↔
      ∃ p ∈ ["ETHBTC"], ∃ msg,
        Binance.sampleRateLimitedEnv.outcome p = some (Binance.FetchErr.other msg)) ∧
    ((∀ p ∈ ["ETHBTC"], ∀ msg,
        Binance.sampleRateLimitedEnv.outcome p ≠ some (Binance.FetchErr.other msg)) →
      Binance.GetOrders Binance.sampleRateLimitedEnv ["ETHBTC"] =
        Except.ok
          ((["ETHBTC"] : List String).flatMap
              (fun p => ((Binance.FetchOpenOrders Binance.sampleRateLimitedEnv p).fst).map
                Binance.convertOrderToExchangeOrder),
            if ∀ p ∈ ["ETHBTC"],
                Binance.sampleRateLimitedEnv.outcome p = some Binance.FetchErr.rateLimited then
              some Binance.FetchErr.rateLimited
            else none)) ∧
    (∀ p ∈ ["ETHBTC"],
      Binance.sampleRateLimitedEnv.outcome p = some Binance.FetchErr.rateLimited →
      (Binance.FetchOpenOrders Binance.sampleRateLimitedEnv p).fst =
        Binance.sampleRateLimitedEnv.lastOpenOrders p)) :=
  ⟨by simp,
    C8_getOrders_rate_limit_aggregation Binance.sampleRateLimitedEnv ["ETHBTC"] (by simp)⟩

/-- C10: AddSession returns an error and leaves the registry unchanged when
the sessionID is already present; otherwise it stores a session with the
given key, secret, role and heartbeat flag under that ID, with the sandbox
URL when isSandbox is set and the production URL otherwise, and leaves all
other IDs untouched. -/
theorem C10_addSession_registry (session : List (Int × Gemini.GeminiSession))
    (g : Gemini.GeminiSession) (sessionID : Int) (apiKey apiSecret role : String)
    (needsHeartbeat isSandbox : Bool) :
    ((∃ g0, Gemini.sessionFind session sessionID = some g0) →
      Gemini.AddSession session g sessionID apiKey apiSecret role needsHeartbeat isSandbox =
        (session, some "sessionID already being used")) ∧
    (Gemini.sessionFind session sessionID = none →
      (Gemini.AddSession session g sessionID apiKey apiSecret role needsHeartbeat
          isSandbox).snd = none ∧
      Gemini.sessionFind
          (Gemini.AddSession session g sessionID apiKey apiSecret role needsHeartbeat
            isSandbox).fst sessionID =
        some { APIKey := apiKey, APISecret := apiSecret, Role := role,
               RequiresHeartBeat := needsHeartbeat,
               APIUrl := if isSandbox then Gemini.geminiSandboxAPIURL
                 else Gemini.geminiAPIURL } ∧
      ∀ id2 : Int, id2 ≠ sessionID →
        Gemini.sessionFind
            (Gemini.AddSession session g sessionID apiKey apiSecret role needsHeartbeat
              isSandbox).fst id2 =
          Gemini.sessionFind session id2) := by
  constructor
  · rintro ⟨g0, h⟩
    unfold Gemini.AddSession
    rw [h]
  · intro h
    unfold Gemini.AddSession
    rw [h]
    refine ⟨rfl, ?_, ?_⟩
    · simp [Gemini.sessionFind]
    · intro id2 hne
      have hne2 : sessionID ≠ id2 := fun e => hne e.symm
      simp [Gemini.sessionFind, hne2]

/-- Witness for C10 on the empty registry. -/
theorem C10_addSession_registry_witness :
    Gemini.sessionFind ([] : List (Int × Gemini.GeminiSession)) 1 = none ∧
    ((Gemini.AddSession [] ⟨"", "", "", false, ""⟩ 1 "key" "secret" "trader" true
        true).snd = none ∧
      Gemini.sessionFind
          (Gemini.AddSession [] ⟨"", "", "", false, ""⟩ 1 "key" "secret" "trader" true
            true).fst 1 =
        some ⟨"key", "secret", "trader", true,
          if true then Gemini.geminiSandboxAPIURL else Gemini.geminiAPIURL⟩ ∧
      ∀ id2 : Int, id2 ≠ 1 →
        Gemini.sessionFind
            (Gemini.AddSession [] ⟨"", "", "", false, ""⟩ 1 "key" "secret" "trader" true
              true).fst id2 =
          Gemini.sessionFind [] id2) :=
  ⟨rfl,
    (C10_addSession_registry [] ⟨"", "", "", false, ""⟩ 1 "key" "secret" "trader" true
      true).2 rfl⟩

/-- The list underlying `String.mk` is recovered by `toList`. -/
theorem Pair.toList_mk (l : List Char) : (String.mk l).toList = l := rfl

/-- A valid codepoint below the surrogate range survives the Char
roundtrip. -/
theorem Pair.toNat_ofNat_below (n : Nat) (h : n < 55296) : (Char.ofNat n).toNat = n := by
  unfold Char.ofNat
  rw [dif_pos (Or.inl h)]
  simp [Char.ofNatAux, Char.toNat, UInt32.toNat]

/-- Rebuilding a character from its codepoint yields the character. -/
theorem Pair.ofNat_toNat_self (c : Char) : Char.ofNat c.toNat = c := by
  unfold Char.ofNat
  rw [dif_pos (show c.toNat.isValidChar from c.valid)]
  apply Char.ext
  simp [Char.ofNatAux, Char.toNat, UInt32.toNat]
  apply UInt32.ext_iff.mpr
  simp [UInt32.toNat]

/-- ASCII upper-casing is idempotent. -/
theorem Pair.asciiUpper_asciiUpper (c : Char) :
    Pair.asciiUpperChar (Pair.asciiUpperChar c) = Pair.asciiUpperChar c := by
  unfold Pair.asciiUpperChar
  by_cases h : 97 ≤ c.toNat ∧ c.toNat ≤ 122
  · rw [if_pos h]
    have ht : (Char.ofNat (c.toNat - 32)).toNat = c.toNat - 32 :=
      Pair.toNat_ofNat_below _ (by omega)
    rw [if_neg (by rw [ht]; omega)]
  · rw [if_neg h, if_neg h]

/-- ASCII upper-casing absorbs a previous lower-casing. -/
theorem Pair.asciiUpper_asciiLower (c : Char) :
    Pair.asciiUpperChar (Pair.asciiLowerChar c) = Pair.asciiUpperChar c := by
  unfold Pair.asciiLowerChar
  by_cases h : 65 ≤ c.toNat ∧ c.toNat ≤ 90
  · rw [if_pos h]
    unfold Pair.asciiUpperChar
    have ht : (Char.ofNat (c.toNat + 32)).toNat = c.toNat + 32 :=
      Pair.toNat_ofNat_below _ (by omega)
    rw [if_pos (by rw [ht]; omega), if_neg (by omega), ht]
    have h2 : c.toNat + 32 - 32 = c.toNat := by omega
    rw [h2, Pair.ofNat_toNat_self]
  · rw [if_neg h]

/-- Upper-normalizing after either case rule equals upper-normalizing the
original code. -/
theorem Pair.map_asciiUpper_applyCase (up : Bool) (l : List Char) :
    (Pair.applyCase up l).map Pair.asciiUpperChar = l.map Pair.asciiUpperChar := by
  cases up with
  | true =>
    simp only [Pair.applyCase, List.map_map]
    congr 1
    funext ch
    exact Pair.asciiUpper_asciiUpper ch
  | false =>
    simp only [Pair.applyCase, List.map_map]
    congr 1
    funext ch
    exact Pair.asciiUpper_asciiLower ch

/-- Splitting a list that does not contain the separator yields the list
itself as a single chunk. -/
theorem Pair.splitOnChar_not_mem (c : Char) (l : List Char) (h : c ∉ l) :
    Pair.splitOnChar c l = [l] := by
  induction l with
  | nil => rfl
  | cons x xs ih =>
    have hx : ¬(x = c) := fun e => h (List.mem_cons.mpr (Or.inl e.symm))
    simp only [Pair.splitOnChar]
    rw [if_neg hx, ih (fun hm => h (List.mem_cons_of_mem x hm))]

/-- Splitting around a single separator occurrence yields the two
surrounding chunks. -/
theorem Pair.splitOnChar_append (c : Char) (a b : List Char) (ha : c ∉ a) (hb : c ∉ b) :
    Pair.splitOnChar c (a ++ c :: b) = [a, b] := by
  induction a with
  | nil =>
    simp [Pair.splitOnChar, Pair.splitOnChar_not_mem c b hb]
  | cons x xs ih =>
    have hx : ¬(x = c) := fun e => ha (List.mem_cons.mpr (Or.inl e.symm))
    have ih2 := ih (fun hm => ha (List.mem_cons_of_mem x hm))
    simp only [List.cons_append, Pair.splitOnChar, List.append_eq]
    rw [if_neg hx, ih2]

/-- Parsing under a format whose delimiter is the single character c is
parsing with that delimiter character. -/
theorem Pair.parse_eq_parseWithDelim (s : String) (fmt : Pair.CurrencyPairFormat)
    (c : Char) (hd : fmt.Delimiter.toList = [c]) :
    Pair.parse s fmt = Pair.parseWithDelim s c := by
  unfold Pair.parse
  rw [hd]

/-- C9 counterexample: the claim asserts the roundtrip
parse(display(pair, format), format) == pair for every valid pair and
every format, but it fails for the empty-delimiter format that the source
configures for Binance, Kraken and Gemini requests (SetDefaults sets
Delimiter to the empty string): the rendered string offers no split point,
so parse returns a FormatError rather than the pair. -/
theorem C9_roundtrip_fails_for_empty_delimiter :
    Pair.parse (Pair.display ⟨"ETH", "BTC"⟩ ⟨"", true⟩) ⟨"", true⟩ =
      Except.error (Pair.FormatError.cannotSplit "ETHBTC") := by rfl

/-- C9 amended: for every pair with non-empty codes and every format whose
delimiter is a single character occurring in neither rendered code, parsing
the displayed string under the same format succeeds and returns a pair
that is equal to the original under the spec's case-normalized pair
equality. -/
theorem C9_parse_display_roundtrip (p : Pair.CurrencyPair) (fmt : Pair.CurrencyPairFormat)
    (c : Char) (hd : fmt.Delimiter.toList = [c])
    (hb : p.FirstCurrency.toList ≠ []) (hq : p.SecondCurrency.toList ≠ [])
    (hcb : c ∉ Pair.applyCase fmt.Uppercase p.FirstCurrency.toList)
    (hcq : c ∉ Pair.applyCase fmt.Uppercase p.SecondCurrency.toList) :
    ∃ q, Pair.parse (Pair.display p fmt) fmt = Except.ok q ∧ Pair.pairEquiv q p := by
  have hdisp : (Pair.display p fmt).toList =
      Pair.applyCase fmt.Uppercase p.FirstCurrency.toList ++
        c :: Pair.applyCase fmt.Uppercase p.SecondCurrency.toList := by
    unfold Pair.display
    rw [Pair.toList_mk, hd, List.append_assoc]
    rfl
  have ha : Pair.applyCase fmt.Uppercase p.FirstCurrency.toList ≠ [] := by
    cases fmt.Uppercase <;> simpa [Pair.applyCase] using hb
  have hbne : Pair.applyCase fmt.Uppercase p.SecondCurrency.toList ≠ [] := by
    cases fmt.Uppercase <;> simpa [Pair.applyCase] using hq
  refine ⟨⟨String.mk (Pair.applyCase fmt.Uppercase p.FirstCurrency.toList),
    String.mk (Pair.applyCase fmt.Uppercase p.SecondCurrency.toList)⟩, ?_, ?_, ?_⟩
  · rw [Pair.parse_eq_parseWithDelim _ _ c hd]
    unfold Pair.parseWithDelim
    rw [hdisp, Pair.splitOnChar_append c _ _ hcb hcq]
    simp [ha, hbne]
    exact ⟨ha, hbne⟩
  · unfold Pair.normCode
    rw [Pair.toList_mk, Pair.map_asciiUpper_applyCase]
  · unfold Pair.normCode
    rw [Pair.toList_mk, Pair.map_asciiUpper_applyCase]

/-- Witness for the amended C9 at the pair ETH/BTC and the slash-delimiter
uppercase format. -/
theorem C9_parse_display_roundtrip_witness :
    ((⟨"/", true⟩ : Pair.CurrencyPairFormat).Delimiter.toList = ['/'] ∧
      ("ETH" : String).toList ≠ [] ∧ ("BTC" : String).toList ≠ [] ∧
      '/' ∉ Pair.applyCase true ("ETH" : String).toList ∧
      '/' ∉ Pair.applyCase true ("BTC" : String).toList) ∧
    ∃ q, Pair.parse (Pair.display ⟨"ETH", "BTC"⟩ ⟨"/", true⟩) ⟨"/", true⟩ =
        Except.ok q ∧ Pair.pairEquiv q ⟨"ETH", "BTC"⟩ :=
  ⟨⟨rfl, by decide, by decide, by decide, by decide⟩,
    C9_parse_display_roundtrip ⟨"ETH", "BTC"⟩ ⟨"/", true⟩ '/' rfl (by decide) (by decide)
      (by decide) (by decide)⟩

end Cryptofiend
